import Mathlib

/-!
Verification of the SJP flow tracker (`sjp_flow_tracker.py`): a shallow
embedding of its date arithmetic, ledger merge semantics, factsheet AUM
extraction, and the quarterly flow back-solver, together with proofs of the
specified properties.

Numeric modelling: Python floats are modelled by `ℚ`; every concrete value
appearing in the claims is exactly representable in binary floating point and
every operation on them is exact, so the rational model agrees with the float
semantics on all inputs used here.  `round(x, 2)` is modelled by round-half-to-
even on rationals (`pyRound`).
-/

namespace SJP

/-- A calendar date (year, month 1..12, day 1..31). -/
structure Date where
  y : ℕ
  m : ℕ
  d : ℕ
  deriving DecidableEq, Repr

/-- Gregorian leap-year test. -/
def isLeap (y : ℕ) : Bool :=
  y % 4 == 0 && (y % 100 != 0 || y % 400 == 0)

/-- Number of days in a given month of a given year. -/
def daysInMonth (y m : ℕ) : ℕ :=
  if m = 2 then (if isLeap y then 29 else 28)
  else if m = 4 ∨ m = 6 ∨ m = 9 ∨ m = 11 then 30
  else 31

/-- The calendar day after a date. -/
def nextDay (dt : Date) : Date :=
  if dt.d < daysInMonth dt.y dt.m then ⟨dt.y, dt.m, dt.d + 1⟩
  else if dt.m < 12 then ⟨dt.y, dt.m + 1, 1⟩
  else ⟨dt.y + 1, 1, 1⟩

/-- Days since 1970-01-01 (Hinnant's civil-from-days algorithm, inverted). -/
def toDays (dt : Date) : ℤ :=
  let y : ℤ := (dt.y : ℤ) - (if dt.m ≤ 2 then 1 else 0)
  let era : ℤ := (if 0 ≤ y then y else y - 399) / 400
  let yoe : ℤ := y - era * 400
  let mp : ℤ := ((dt.m : ℤ) + 9) % 12
  let doy : ℤ := (153 * mp + 2) / 5 + (dt.d : ℤ) - 1
  let doe : ℤ := yoe * 365 + yoe / 4 - yoe / 100 + doy
  era * 146097 + doe - 719468

/-- Day of week, Monday = 0 (Python convention); 1970-01-01 was a Thursday. -/
def weekday (dt : Date) : ℤ :=
  (toDays dt + 3) % 7

/-- A business day under pandas `freq="C"` with no holiday calendar: Mon-Fri. -/
def isBizDay (dt : Date) : Bool :=
  weekday dt < 5

/-- The business days among the next `fuel` calendar days starting at `dt`. -/
def bizDaysAux : Date → ℕ → List Date
  | _, 0 => []
  | dt, fuel + 1 =>
    if isBizDay dt then dt :: bizDaysAux (nextDay dt) fuel
    else bizDaysAux (nextDay dt) fuel

/-- Pandas `ts - pd.offsets.MonthBegin()`: the latest first-of-month strictly
before `ts` (an anchored offset rolls back to the previous anchor; a date
already on the anchor moves to the anchor before it). -/
def monthBeginSub (dt : Date) : Date :=
  if dt.d = 1 then
    (if dt.m = 1 then ⟨dt.y - 1, 12, 1⟩ else ⟨dt.y, dt.m - 1, 1⟩)
  else ⟨dt.y, dt.m, 1⟩

/-- Pandas `ts - pd.offsets.QuarterBegin(startingMonth=1)`: the latest
quarter-begin anchor (1 Jan / 1 Apr / 1 Jul / 1 Oct) strictly before `ts`. -/
def quarterBeginSub (dt : Date) : Date :=
  let qm : ℕ := 3 * ((dt.m - 1) / 3) + 1
  if dt.m = qm ∧ dt.d = 1 then
    (if qm = 1 then ⟨dt.y - 1, 10, 1⟩ else ⟨dt.y, qm - 3, 1⟩)
  else ⟨dt.y, qm, 1⟩

/-- Modelled from the spec: the calendar month-end three months prior to
`quarter_end` — the spec's definition of `quarter_start` (§4.3 step 1),
stated for comparison with the source's `quarterBeginSub`. -/
def spec_quarter_start (dt : Date) : Date :=
  if 4 ≤ dt.m then ⟨dt.y, dt.m - 3, daysInMonth dt.y (dt.m - 3)⟩
  else ⟨dt.y - 1, dt.m + 9, daysInMonth (dt.y - 1) (dt.m + 9)⟩

/-- Modelled from the spec: the last calendar day of the month preceding
`today` — the `quarter_end` the spec says the Driver passes to the
Back-Solver, stated for comparison with the source's `monthBeginSub`. -/
def spec_quarter_end (dt : Date) : Date :=
  if dt.m = 1 then ⟨dt.y - 1, 12, 31⟩
  else ⟨dt.y, dt.m - 1, daysInMonth dt.y (dt.m - 1)⟩

/-- The Driver's trigger condition (source lines 144-150): today lies among
the first 10 business days of its month, and the month is Jan/Apr/Jul/Oct. -/
def isEstimationDay (dt : Date) : Bool :=
  decide (dt ∈ (bizDaysAux ⟨dt.y, dt.m, 1⟩ 31).take 10) &&
    (dt.m == 1 || dt.m == 4 || dt.m == 7 || dt.m == 10)

/-- Python's builtin `round` to an integer: round half to even. -/
def pyRound (x : ℚ) : ℤ :=
  if x - ⌊x⌋ < 1 / 2 then ⌊x⌋
  else if 1 / 2 < x - ⌊x⌋ then ⌊x⌋ + 1
  else if 2 ∣ ⌊x⌋ then ⌊x⌋ else ⌊x⌋ + 1

/-- Python's `round(x, 2)`. -/
def round2 (x : ℚ) : ℚ :=
  (pyRound (x * 100) : ℚ) / 100

/-! ### Ledger records and merge semantics

The Price Series Store is `data/prices.csv`, merged by
`pd.concat([existing, new]).drop_duplicates(subset=["date", "code"])`
(source lines 134-141); the Quarterly Flow Ledger is
`data/quarterly_flows.csv` merged the same way on `["quarter_end", "code"]`
(source lines 156-161).  `drop_duplicates` keeps the first row per key. -/

/-- One row of `prices.csv`: date, fund code, price in pence. -/
structure PriceObs where
  date : Date
  code : String
  price_pence : ℚ
  deriving DecidableEq, Repr

/-- Natural key of a price observation. -/
def priceKey (r : PriceObs) : Date × String :=
  (r.date, r.code)

/-- A Python/numpy float as far as the flow pipeline can observe it: an
exact rational (every finite value reached here is float-exact), or one of
the non-finite values that numpy division by zero produces with only a
`RuntimeWarning` — no exception is raised. -/
inductive PyFloat where
  | fin (q : ℚ)
  | posInf
  | negInf
  | nan
  deriving DecidableEq, Repr

/-- One row of `quarterly_flows.csv`: quarter end, fund code, flow in £m.
The flow is a float and may be non-finite (a zero starting price makes the
code record ±inf or nan, see `flowValue`). -/
structure FlowRec where
  quarter_end : Date
  code : String
  flow_gbp_m : PyFloat
  deriving DecidableEq, Repr

/-- Natural key of a flow record. -/
def flowKey (r : FlowRec) : Date × String :=
  (r.quarter_end, r.code)

/-- Pandas `DataFrame.drop_duplicates(subset=key)`: keep the first row for
each key, preserving order. -/
def dropDuplicates {α κ : Type} [DecidableEq κ] (key : α → κ) : List α → List α
  | [] => []
  | a :: rest => a :: dropDuplicates key (rest.filter fun b => key b ≠ key a)
  termination_by l => l.length
  decreasing_by
    simp only [List.length_cons]
    exact Nat.lt_succ_of_le (List.length_filter_le _ _)

/-- The Price Series Store merge: existing rows first, then the new batch,
then dedup on (date, code) keeping the first occurrence. -/
def record_batch (existing new : List PriceObs) : List PriceObs :=
  dropDuplicates priceKey (existing ++ new)

/-- The Quarterly Flow Ledger merge: same semantics, keyed on
(quarter_end, code). -/
def merge_flows (existing new : List FlowRec) : List FlowRec :=
  dropDuplicates flowKey (existing ++ new)

/-! ### AUM snapshot fetch (`get_month_end_size`, source lines 60-84)

The HTTP layer is out of scope; the function is modelled as a function of the
factsheet's extracted text (the "underlying document").  The URL is built from
the fund code alone (`FACTSHEET_PDF`, lines 30-32).  The date check (line 74)
only prints a warning; the returned value comes from the regex scan
`Fund size\s*£\s*([\d.,]+)\s*([mb]n)` (case-insensitive, first match) and
`float(num.replace(",", ""))`, scaled by 1000 when the unit starts with b. -/

/-- `FACTSHEET_PDF.format(code=code)`: the URL depends on the code only. -/
def factsheetUrl (code : String) : String :=
  "https://fundfactsheets.sjp.co.uk/Latest/" ++ code ++ "_Factsheet.pdf"

/-- Python regex `\s` on the ASCII range. -/
def isPyWs (c : Char) : Bool :=
  c == ' ' || c == '\t' || c == '\n' || c == '\r' || c == '\x0b' || c == '\x0c'

/-- A character of the regex class `[\d.,]`. -/
def isNumChar (c : Char) : Bool :=
  c.isDigit || c == '.' || c == ','

/-- Case-insensitive literal match; returns the rest of the input on success. -/
def matchLitCI : List Char → List Char → Option (List Char)
  | [], s => some s
  | _ :: _, [] => none
  | p :: ps, c :: cs => if p.toLower == c.toLower then matchLitCI ps cs else none

/-- Try to match `Fund size\s*£\s*([\d.,]+)\s*([mb]n)` (case-insensitively)
at the head of the input; on success return the number capture and the
lowercased first letter of the unit capture. -/
def matchFundSizeAt (s : List Char) : Option (List Char × Char) :=
  match matchLitCI "Fund size".toList s with
  | none => none
  | some r1 =>
    match r1.dropWhile isPyWs with
    | [] => none
    | c :: r2 =>
      if c == '£' then
        match (r2.dropWhile isPyWs).takeWhile isNumChar,
              ((r2.dropWhile isPyWs).dropWhile isNumChar).dropWhile isPyWs with
        | [], _ => none
        | _, [] => none
        | num, u :: r3 =>
          match r3 with
          | [] => none
          | n :: _ =>
            if (u.toLower == 'm' || u.toLower == 'b') && n.toLower == 'n' then
              some (num, u.toLower)
            else none
      else none

/-- `re.search`: leftmost position at which the pattern matches. -/
def searchFundSize : List Char → Option (List Char × Char)
  | [] => none
  | c :: rest =>
    match matchFundSizeAt (c :: rest) with
    | some r => some r
    | none => searchFundSize rest

/-- Value of a digit string read in base 10. -/
def digitsVal (l : List Char) : ℕ :=
  l.foldl (fun a c => 10 * a + (c.toNat - 48)) 0

/-- Python `float(s)` on a string drawn from the digits-and-dots alphabet
(commas already removed): at most one dot and at least one digit, else a
`ValueError` (`none`). -/
def parseNum (cs : List Char) : Option ℚ :=
  match cs.dropWhile Char.isDigit with
  | [] => if cs = [] then none else some (digitsVal cs)
  | '.' :: fp =>
    if fp.all Char.isDigit ∧ (cs.takeWhile Char.isDigit ≠ [] ∨ fp ≠ []) then
      some (digitsVal (cs.takeWhile Char.isDigit) + digitsVal fp / 10 ^ fp.length)
    else none
  | _ => none

/-- English month name, for `strftime("%B")`. -/
def monthName (m : ℕ) : String :=
  (["January", "February", "March", "April", "May", "June", "July",
    "August", "September", "October", "November", "December"]).getD (m - 1) ""

/-- Zero-padded two-digit number, for `strftime("%d")`. -/
def pad2 (n : ℕ) : String :=
  if n < 10 then "0" ++ toString n else toString n

/-- `as_of.strftime("%d %B %Y")`. -/
def dateStrFmt (dt : Date) : String :=
  pad2 dt.d ++ " " ++ monthName dt.m ++ " " ++ toString dt.y

/-- `get_month_end_size`, as a function of the factsheet text: first
component is the returned size in GBP millions (or the raised error), second
component records whether the staleness warning was printed to stderr.  The
`as_of` date is used only for the warning. -/
def get_month_end_size (text : String) (code : String) (as_of : Date) :
    Except String ℚ × Bool :=
  (match searchFundSize text.toList with
   | none => .error ("Could not find Fund size for " ++ code)
   | some (num, unit) =>
     match parseNum (num.filter fun c => !(c == ',')) with
     | none => .error "ValueError: could not convert string to float"
     | some v => .ok (v * (if unit == 'b' then 1000 else 1)),
   !decide ((dateStrFmt as_of).toList <:+: text.toList))

/-! ### Flow back-solver (`backsolve_flows`, source lines 87-122)

The AUM collaborator is modelled as `aum : String → Date → Except String ℚ`
(`Except.error` standing for any exception raised by `get_month_end_size`,
which the `try`/`except` on lines 93-98 catches).  The price lookups on
lines 100-108 are *not* inside that `try`: an empty selection makes
`.iloc[0]` raise `IndexError`, which propagates out of `backsolve_flows`,
so the whole batch result is `Except` as well.  The prices extracted by
`.iloc[0]` are `numpy.float64` scalars, so a zero starting price does *not*
raise on line 110: numpy division by zero returns ±inf (or nan) with a
`RuntimeWarning`, the arithmetic proceeds, and a record with a non-finite
flow is appended (`flowValue`).  The second component of a successful result
lists the per-fund diagnostics printed to stderr. -/

/-- Exact-date lookup in the price frame:
`price_df.loc[(code == c) & (date == d)].iloc[0]["price_pence"]`, with the
empty-selection case surfaced as `none`. -/
def lookupPrice (df : List PriceObs) (code : String) (date : Date) : Option ℚ :=
  ((df.filter fun r => decide (r.code = code ∧ r.date = date)).head?).map
    PriceObs.price_pence

/-- Line 110: `units_start = size_start * 1e6 / p_start`. -/
def units_start (size_start p_start : ℚ) : ℚ :=
  size_start * 1000000 / p_start

/-- Line 111: `aum_no_flow = units_start * p_end / 1e6`. -/
def aum_no_flow (u p_end : ℚ) : ℚ :=
  u * p_end / 1000000

/-- Lines 110-118 combined: the rounded flow figure written to the record. -/
def reportedFlow (size_start size_end p_start p_end : ℚ) : ℚ :=
  round2 (size_end - aum_no_flow (units_start size_start p_start) p_end)

/-- The float value lines 110-118 store in the record, non-finite divisors
included.  With `p_start = 0` (a positive zero: rationals have no −0.0 and
the feed's values are plain decimals), numpy gives
`units_start = size_start*1e6/0.0 = ±inf` by the sign of `size_start` (nan
when it is 0), `aum_no_flow = units_start*p_end/1e6 = ±inf` by the product
sign (nan when `p_end = 0`), `flow = size_end - (±inf) = ∓inf`, and
`round(±inf, 2) = ±inf`, `round(nan, 2) = nan` — no exception anywhere.
With `p_start ≠ 0` everything is finite and exact. -/
def flowValue (size_start size_end p_start p_end : ℚ) : PyFloat :=
  if p_start = 0 then
    if size_start = 0 ∨ p_end = 0 then .nan
    else if (0 < size_start ∧ 0 < p_end) ∨ (size_start < 0 ∧ p_end < 0) then .negInf
    else .posInf
  else .fin (reportedFlow size_start size_end p_start p_end)

/-- One iteration of the `for code in codes` loop: either a flow record, a
caught-and-logged AUM failure (`Sum.inr`), or an uncaught exception. -/
def fundStep (aum : String → Date → Except String ℚ) (df : List PriceObs)
    (month_start month_end : Date) (code : String) :
    Except String (FlowRec ⊕ String) :=
  match aum code month_start with
  | .error e => .ok (.inr (code ++ ": " ++ e))
  | .ok size_start =>
    match aum code month_end with
    | .error e => .ok (.inr (code ++ ": " ++ e))
    | .ok size_end =>
      match lookupPrice df code month_start with
      | none => .error ("IndexError: single positional indexer is out-of-bounds")
      | some p_start =>
        match lookupPrice df code month_end with
        | none => .error ("IndexError: single positional indexer is out-of-bounds")
        | some p_end =>
          .ok (.inl ⟨month_end, code, flowValue size_start size_end p_start p_end⟩)

/-- The fund loop of `backsolve_flows`: successful records in order, plus the
stderr log lines; an uncaught exception aborts the remaining funds. -/
def backsolveGo (aum : String → Date → Except String ℚ) (df : List PriceObs)
    (month_start month_end : Date) :
    List String → Except String (List FlowRec × List String)
  | [] => .ok ([], [])
  | code :: rest =>
    match fundStep aum df month_start month_end code with
    | .error e => .error e
    | .ok r =>
      match backsolveGo aum df month_start month_end rest with
      | .error e => .error e
      | .ok (fs, ls) =>
        match r with
        | .inl f => .ok (f :: fs, ls)
        | .inr l => .ok (fs, l :: ls)

/-- `backsolve_flows(month_end, codes, price_df)` with the AUM collaborator
passed explicitly; line 89 computes `month_start` by subtracting
`pd.offsets.QuarterBegin(startingMonth=1)`. -/
def backsolve_flows (aum : String → Date → Except String ℚ) (month_end : Date)
    (codes : List String) (price_df : List PriceObs) :
    Except String (List FlowRec × List String) :=
  backsolveGo aum price_df (quarterBeginSub month_end) month_end codes

section MergeTheory

variable {α κ : Type} [DecidableEq κ] (key : α → κ)

theorem mem_of_mem_dropDuplicates {x : α} (l : List α) :
    x ∈ dropDuplicates key l → x ∈ l := by
  induction l using dropDuplicates.induct key with
  | case1 => simp [dropDuplicates]
  | case2 a rest ih =>
    simp only [dropDuplicates, List.mem_cons]
    rintro (rfl | hx)
    · exact Or.inl rfl
    · exact Or.inr (List.mem_of_mem_filter (ih hx))

theorem exists_key_dropDuplicates {x : α} (l : List α) (hx : x ∈ l) :
    ∃ y ∈ dropDuplicates key l, key y = key x := by
  induction l using dropDuplicates.induct key generalizing x with
  | case1 => simp at hx
  | case2 a rest ih =>
    rcases List.mem_cons.mp hx with rfl | hr
    · exact ⟨x, by simp [dropDuplicates], rfl⟩
    · by_cases hk : key x = key a
      · exact ⟨a, by simp [dropDuplicates], hk.symm⟩
      · obtain ⟨y, hy, hky⟩ := ih (List.mem_filter.mpr ⟨hr, by simpa using hk⟩)
        refine ⟨y, ?_, hky⟩
        simp only [dropDuplicates, List.mem_cons]
        exact Or.inr hy

theorem dropDuplicates_append_absorb (l : List α) :
    ∀ m : List α, (∀ x ∈ m, ∃ y ∈ l, key y = key x) →
      dropDuplicates key (l ++ m) = dropDuplicates key l := by
  induction l using dropDuplicates.induct key with
  | case1 =>
    intro m h
    have : m = [] := by
      apply List.eq_nil_iff_forall_not_mem.mpr
      intro x hx
      obtain ⟨y, hy, -⟩ := h x hx
      simp at hy
    simp [this]
  | case2 a rest ih =>
    intro m h
    simp only [List.cons_append, dropDuplicates, List.filter_append]
    rw [ih (m.filter fun b => key b ≠ key a)]
    intro x hx
    have hxm : x ∈ m := List.mem_of_mem_filter hx
    have hxa : ¬ key x = key a := by
      have := (List.mem_filter.mp hx).2
      simpa using this
    obtain ⟨y, hy, hky⟩ := h x hxm
    rcases List.mem_cons.mp hy with rfl | hyr
    · exact absurd hky.symm hxa
    · refine ⟨y, List.mem_filter.mpr ⟨hyr, ?_⟩, hky⟩
      simp [hky, hxa]

theorem pairwise_key_dropDuplicates (l : List α) :
    (dropDuplicates key l).Pairwise (fun x y => key x ≠ key y) := by
  induction l using dropDuplicates.induct key with
  | case1 => simp [dropDuplicates]
  | case2 a rest ih =>
    simp only [dropDuplicates, List.pairwise_cons]
    refine ⟨fun y hy => ?_, ih⟩
    have := (List.mem_filter.mp (mem_of_mem_dropDuplicates key _ hy)).2
    simp only [decide_not, Bool.not_eq_eq_eq_not, Bool.not_true, decide_eq_false_iff_not] at this
    exact fun hk => this hk.symm

theorem dropDuplicates_eq_self_of_pairwise (l : List α)
    (h : l.Pairwise (fun x y => key x ≠ key y)) : dropDuplicates key l = l := by
  induction l with
  | nil => simp [dropDuplicates]
  | cons a rest ih =>
    rcases List.pairwise_cons.mp h with ⟨ha, hrest⟩
    have hfilter : (rest.filter fun b => key b ≠ key a) = rest := by
      apply List.filter_eq_self.mpr
      intro b hb
      simpa using fun hk => ha b hb hk.symm
    simp only [dropDuplicates, hfilter, ih hrest]

theorem dropDuplicates_idem (l : List α) :
    dropDuplicates key (dropDuplicates key l) = dropDuplicates key l :=
  dropDuplicates_eq_self_of_pairwise key _ (pairwise_key_dropDuplicates key l)

theorem find?_filter_of_imp (p q : α → Bool) (l : List α)
    (h : ∀ x, p x = true → q x = true) :
    (l.filter q).find? p = l.find? p := by
  induction l with
  | nil => simp
  | cons a rest ih =>
    by_cases hq : q a = true
    · by_cases hp : p a = true <;> simp [List.filter_cons, hq, List.find?_cons, hp, ih]
    · have hp : ¬ p a = true := fun hpa => hq (h a hpa)
      simp [List.filter_cons, hq, List.find?_cons, hp, ih]

theorem find?_dropDuplicates (l : List α) (k : κ) :
    (dropDuplicates key l).find? (fun x => key x = k) =
      l.find? (fun x => key x = k) := by
  induction l using dropDuplicates.induct key with
  | case1 => simp [dropDuplicates]
  | case2 a rest ih =>
    by_cases hk : key a = k
    · simp [dropDuplicates, List.find?_cons, hk]
    · simp only [dropDuplicates, List.find?_cons, decide_eq_true_eq, hk, decide_False]
      rw [ih, find?_filter_of_imp]
      intro x hx
      simp only [decide_eq_true_eq] at hx
      have hxa : ¬ key x = key a := by rw [hx]; exact fun h => hk h.symm
      simpa using hxa

end MergeTheory

section RoundingTheory

theorem floor_le_pyRound (x : ℚ) : ⌊x⌋ ≤ pyRound x := by
  unfold pyRound
  split_ifs <;> omega

theorem pyRound_le_floor_add_one (x : ℚ) : pyRound x ≤ ⌊x⌋ + 1 := by
  unfold pyRound
  split_ifs <;> omega

theorem pyRound_mono {x y : ℚ} (h : x ≤ y) : pyRound x ≤ pyRound y := by
  have hfl : ⌊x⌋ ≤ ⌊y⌋ := Int.floor_mono h
  rcases lt_or_eq_of_le hfl with hlt | heq
  · calc pyRound x ≤ ⌊x⌋ + 1 := pyRound_le_floor_add_one x
      _ ≤ ⌊y⌋ := by omega
      _ ≤ pyRound y := floor_le_pyRound y
  · have hfr : x - (⌊x⌋ : ℚ) ≤ y - (⌊y⌋ : ℚ) := by
      rw [← heq]
      exact sub_le_sub_right h _
    unfold pyRound
    split_ifs <;> first | omega | linarith

theorem round2_mono {x y : ℚ} (h : x ≤ y) : round2 x ≤ round2 y := by
  have h100 : x * 100 ≤ y * 100 := by linarith
  have hpr : (pyRound (x * 100) : ℚ) ≤ (pyRound (y * 100) : ℚ) := by
    exact_mod_cast pyRound_mono h100
  unfold round2
  linarith

end RoundingTheory

section BatchTheory

theorem merge_absorb_key {α κ : Type} [DecidableEq κ] (key : α → κ) (s b : List α) :
    dropDuplicates key (dropDuplicates key (s ++ b) ++ b) =
      dropDuplicates key (s ++ b) := by
  rw [dropDuplicates_append_absorb key _ b, dropDuplicates_idem]
  intro x hx
  exact exists_key_dropDuplicates key _ (List.mem_append_right s hx)

theorem find?_merge_key {α κ : Type} [DecidableEq κ] (key : α → κ) (s b : List α)
    (k : κ) (r : α) (h : s.find? (fun x => key x = k) = some r) :
    (dropDuplicates key (s ++ b)).find? (fun x => key x = k) = some r := by
  rw [find?_dropDuplicates, List.find?_append, h]
  rfl

theorem backsolveGo_all_ok (aum : String → Date → Except String ℚ)
    (df : List PriceObs) (ms me : Date) (codes : List String) :
    (∀ c ∈ codes, ∃ p, lookupPrice df c ms = some p ∧ p ≠ 0) →
    (∀ c ∈ codes, ∃ p, lookupPrice df c me = some p) →
    (∀ c ∈ codes, ∃ v, aum c ms = Except.ok v) →
    (∀ c ∈ codes, ∃ v, aum c me = Except.ok v) →
    ∃ recs, backsolveGo aum df ms me codes = .ok (recs, []) ∧
      recs.length = codes.length := by
  induction codes with
  | nil => exact fun _ _ _ _ => ⟨[], rfl, rfl⟩
  | cons c rest ih =>
    intro hp1 hp2 hok1 hok2
    obtain ⟨p1, hp1c, hp1nz⟩ := hp1 c (List.mem_cons_self c rest)
    obtain ⟨p2, hp2c⟩ := hp2 c (List.mem_cons_self c rest)
    obtain ⟨v1, hv1⟩ := hok1 c (List.mem_cons_self c rest)
    obtain ⟨v2, hv2⟩ := hok2 c (List.mem_cons_self c rest)
    obtain ⟨recs, hgo, hlen⟩ :=
      ih (fun x hx => hp1 x (List.mem_cons_of_mem c hx))
        (fun x hx => hp2 x (List.mem_cons_of_mem c hx))
        (fun x hx => hok1 x (List.mem_cons_of_mem c hx))
        (fun x hx => hok2 x (List.mem_cons_of_mem c hx))
    refine ⟨⟨me, c, flowValue v1 v2 p1 p2⟩ :: recs, ?_, by simp [hlen]⟩
    simp only [backsolveGo, fundStep, hv1, hv2, hp1c, hp2c, hgo]

theorem backsolveGo_one_fail (aum : String → Date → Except String ℚ)
    (df : List PriceObs) (ms me : Date) (codes : List String) (k err : String) :
    codes.Nodup → k ∈ codes →
    (∀ c ∈ codes, ∃ p, lookupPrice df c ms = some p ∧ p ≠ 0) →
    (∀ c ∈ codes, ∃ p, lookupPrice df c me = some p) →
    (∀ c ∈ codes, c ≠ k → ∃ v, aum c ms = Except.ok v) →
    (∀ c ∈ codes, c ≠ k → ∃ v, aum c me = Except.ok v) →
    (aum k ms = .error err ∨
      ((∃ v, aum k ms = Except.ok v) ∧ aum k me = .error err)) →
    ∃ recs, backsolveGo aum df ms me codes = .ok (recs, [k ++ ": " ++ err]) ∧
      recs.length = codes.length - 1 := by
  induction codes with
  | nil => intro _ hk; simp at hk
  | cons c rest ih =>
    intro hnd hk hp1 hp2 hok1 hok2 hfail
    rcases List.nodup_cons.mp hnd with ⟨hcr, hndr⟩
    by_cases hck : c = k
    · subst hck
      have hstep : fundStep aum df ms me c = .ok (.inr (c ++ ": " ++ err)) := by
        rcases hfail with h1 | ⟨⟨v, hv⟩, h2⟩
        · simp [fundStep, h1]
        · simp [fundStep, hv, h2]
      have hne : ∀ x ∈ rest, x ≠ c := fun x hx hxc => hcr (hxc ▸ hx)
      obtain ⟨recs, hgo, hlen⟩ :=
        backsolveGo_all_ok aum df ms me rest
          (fun x hx => hp1 x (List.mem_cons_of_mem c hx))
          (fun x hx => hp2 x (List.mem_cons_of_mem c hx))
          (fun x hx => hok1 x (List.mem_cons_of_mem c hx) (hne x hx))
          (fun x hx => hok2 x (List.mem_cons_of_mem c hx) (hne x hx))
      refine ⟨recs, ?_, by simp [hlen]⟩
      simp only [backsolveGo, hstep, hgo]
    · have hkr : k ∈ rest := by
        rcases List.mem_cons.mp hk with h | h
        · exact absurd h.symm hck
        · exact h
      obtain ⟨p1, hp1c, hp1nz⟩ := hp1 c (List.mem_cons_self c rest)
      obtain ⟨p2, hp2c⟩ := hp2 c (List.mem_cons_self c rest)
      obtain ⟨v1, hv1⟩ := hok1 c (List.mem_cons_self c rest) hck
      obtain ⟨v2, hv2⟩ := hok2 c (List.mem_cons_self c rest) hck
      obtain ⟨recs, hgo, hlen⟩ :=
        ih hndr hkr
          (fun x hx => hp1 x (List.mem_cons_of_mem c hx))
          (fun x hx => hp2 x (List.mem_cons_of_mem c hx))
          (fun x hx => hok1 x (List.mem_cons_of_mem c hx))
          (fun x hx => hok2 x (List.mem_cons_of_mem c hx))
          hfail
      have hrl : 1 ≤ rest.length := List.length_pos.mpr (List.ne_nil_of_mem hkr)
      refine ⟨⟨me, c, flowValue v1 v2 p1 p2⟩ :: recs, ?_, ?_⟩
      · simp only [backsolveGo, fundStep, hv1, hv2, hp1c, hp2c, hgo]
      · simp only [List.length_cons, hlen]
        omega

end BatchTheory

/-! ### The claims -/

/-- C1: the claim says the `quarter_start` computed by the Back-Solver is the
calendar month-end three months prior to `quarter_end` (e.g. 31 December for
a 31 March quarter end).  The code subtracts `pd.offsets.QuarterBegin(1)`,
which lands on the *first day* of the quarter (1 January for a 31 March
quarter end), never on a month-end: at `quarter_end = 2024-03-31` the code
computes 2024-01-01 while the claimed value is 2023-12-31, and likewise at
every standard quarter end of 2024. -/
theorem claim1_code_quarter_start_is_quarter_first_day :
    quarterBeginSub ⟨2024, 3, 31⟩ = ⟨2024, 1, 1⟩ ∧
    spec_quarter_start ⟨2024, 3, 31⟩ = ⟨2023, 12, 31⟩ ∧
    quarterBeginSub ⟨2024, 3, 31⟩ ≠ spec_quarter_start ⟨2024, 3, 31⟩ ∧
    quarterBeginSub ⟨2024, 6, 30⟩ = ⟨2024, 4, 1⟩ ∧
    quarterBeginSub ⟨2024, 9, 30⟩ = ⟨2024, 7, 1⟩ ∧
    quarterBeginSub ⟨2024, 12, 31⟩ = ⟨2024, 10, 1⟩ := by
  decide

/-- C2: with `price_start` = 100 pence, `price_end` = 110 pence,
`aum_start` = 50 £m and `aum_end` = 58 £m, the back-solved `units_start` is
500,000, the no-flow AUM projection is 55 £m, and the reported (2 dp rounded)
flow is exactly 3.00; with `aum_end` = 52 it is exactly −3.00. -/
theorem claim2_concrete_backsolve_scenarios :
    units_start 50 100 = 500000 ∧
    aum_no_flow (units_start 50 100) 110 = 55 ∧
    reportedFlow 50 58 100 110 = 3 ∧
    reportedFlow 50 52 100 110 = -3 := by
  norm_num [units_start, aum_no_flow, reportedFlow, round2, pyRound]

/-- C3: the claim says a `NotFound` exact-date price lookup is a non-fatal,
fund-scoped failure.  In the code the price lookups sit *outside* the
`try`/`except` that guards the AUM fetches, so an empty selection raises an
uncaught `IndexError` that aborts the entire batch: with fund A missing its
`quarter_start` price, the two-fund batch [A, B] returns the exception and
records nothing, although fund B alone would have produced a record. -/
theorem claim3_price_gap_aborts_whole_batch :
    backsolve_flows (fun _ _ => .ok 50) ⟨2024, 3, 31⟩ ["A", "B"]
        [⟨⟨2024, 1, 1⟩, "B", 100⟩, ⟨⟨2024, 3, 31⟩, "B", 110⟩,
         ⟨⟨2024, 3, 31⟩, "A", 120⟩]
      = .error "IndexError: single positional indexer is out-of-bounds" ∧
    backsolve_flows (fun _ _ => .ok 50) ⟨2024, 3, 31⟩ ["B"]
        [⟨⟨2024, 1, 1⟩, "B", 100⟩, ⟨⟨2024, 3, 31⟩, "B", 110⟩,
         ⟨⟨2024, 3, 31⟩, "A", 120⟩]
      = .ok ([⟨⟨2024, 3, 31⟩, "B", .fin (-5)⟩], []) := by
  constructor
  · rfl
  · norm_num [backsolve_flows, backsolveGo, fundStep, lookupPrice, quarterBeginSub,
      flowValue, reportedFlow, units_start, aum_no_flow, round2, pyRound, List.filter]

/-- C4: for a fixed underlying factsheet document, the AUM value returned by
`get_month_end_size` (the raised error included) is the same whatever `as_of`
date is requested: the date only drives the staleness warning, and the
fetched URL (`factsheetUrl`) is a function of the fund code alone. -/
theorem claim4_aum_value_independent_of_as_of (text code : String)
    (a1 a2 : Date) :
    (get_month_end_size text code a1).1 = (get_month_end_size text code a2).1 :=
  rfl

/-- C5: the claim says a zero or negative price or AUM value must not yield a
flow figure and is a fund-scoped failure.  The code performs no integrity
check: with a *negative* quarter-end price of −110 pence it silently emits a
nonsensical flow record of 113 £m for the fund; and with a *zero* starting
price the numpy float division returns inf (a `RuntimeWarning`, not an
exception), so it silently emits a record with flow −inf and carries on with
the rest of the batch. -/
theorem claim5_negative_price_flow_emitted :
    backsolve_flows
        (fun _ d => if d = ⟨2024, 3, 31⟩ then .ok 58 else .ok 50) ⟨2024, 3, 31⟩
        ["A"] [⟨⟨2024, 1, 1⟩, "A", 100⟩, ⟨⟨2024, 3, 31⟩, "A", -110⟩]
      = .ok ([⟨⟨2024, 3, 31⟩, "A", .fin 113⟩], []) ∧
    (-110 : ℚ) < 0 ∧
    backsolve_flows
        (fun _ d => if d = ⟨2024, 3, 31⟩ then .ok 58 else .ok 50) ⟨2024, 3, 31⟩
        ["A", "B"]
        [⟨⟨2024, 1, 1⟩, "A", 0⟩, ⟨⟨2024, 3, 31⟩, "A", 110⟩,
         ⟨⟨2024, 1, 1⟩, "B", 100⟩, ⟨⟨2024, 3, 31⟩, "B", 110⟩]
      = .ok ([⟨⟨2024, 3, 31⟩, "A", .negInf⟩, ⟨⟨2024, 3, 31⟩, "B", .fin 3⟩], []) := by
  have hAB : ¬ ("A" : String) = "B" := by decide
  have hBA : ¬ ("B" : String) = "A" := by decide
  refine ⟨?_, by norm_num, ?_⟩
  · norm_num [backsolve_flows, backsolveGo, fundStep, lookupPrice, quarterBeginSub,
      flowValue, reportedFlow, units_start, aum_no_flow, round2, pyRound, List.filter]
  · norm_num [backsolve_flows, backsolveGo, fundStep, lookupPrice, quarterBeginSub,
      flowValue, reportedFlow, units_start, aum_no_flow, round2, pyRound, List.filter,
      hAB, hBA]

/-- C6: if exactly one fund of the universe fails its AUM fetch (at either
boundary) and every other lookup succeeds with a nonzero starting price, the
batch completes without an exception, yields one record per surviving fund
(N − 1 records), and logs a single diagnostic naming the failing fund and
the reason. -/
theorem claim6_single_aum_failure_fund_scoped
    (aum : String → Date → Except String ℚ) (df : List PriceObs)
    (month_end : Date) (codes : List String) (k err : String)
    (hnd : codes.Nodup) (hk : k ∈ codes)
    (hp1 : ∀ c ∈ codes,
      ∃ p, lookupPrice df c (quarterBeginSub month_end) = some p ∧ p ≠ 0)
    (hp2 : ∀ c ∈ codes, ∃ p, lookupPrice df c month_end = some p)
    (hok1 : ∀ c ∈ codes, c ≠ k →
      ∃ v, aum c (quarterBeginSub month_end) = Except.ok v)
    (hok2 : ∀ c ∈ codes, c ≠ k → ∃ v, aum c month_end = Except.ok v)
    (hfail : aum k (quarterBeginSub month_end) = .error err ∨
      ((∃ v, aum k (quarterBeginSub month_end) = Except.ok v) ∧
        aum k month_end = .error err)) :
    ∃ recs, backsolve_flows aum month_end codes df =
        .ok (recs, [k ++ ": " ++ err]) ∧
      recs.length = codes.length - 1 :=
  backsolveGo_one_fail aum df (quarterBeginSub month_end) month_end codes k err
    hnd hk hp1 hp2 hok1 hok2 hfail

/-- Witness for C6: a two-fund universe [A, B] in which fund A's AUM fetch
raises while every price and B's AUM resolve; the batch returns one record
and the single log line "A: boom". -/
theorem claim6_single_aum_failure_fund_scoped_witness :
    ∃ recs, backsolve_flows
        (fun c _ => if c = "A" then .error "boom" else .ok 50) ⟨2024, 3, 31⟩
        ["A", "B"]
        [⟨⟨2024, 1, 1⟩, "A", 100⟩, ⟨⟨2024, 3, 31⟩, "A", 110⟩,
         ⟨⟨2024, 1, 1⟩, "B", 100⟩, ⟨⟨2024, 3, 31⟩, "B", 110⟩] =
        .ok (recs, ["A" ++ ": " ++ "boom"]) ∧
      recs.length = (["A", "B"] : List String).length - 1 := by
  apply claim6_single_aum_failure_fund_scoped
  · decide
  · decide
  · intro c hc
    rcases (by simpa using hc : c = "A" ∨ c = "B") with rfl | rfl
    · exact ⟨100, rfl, by norm_num⟩
    · exact ⟨100, rfl, by norm_num⟩
  · intro c hc
    rcases (by simpa using hc : c = "A" ∨ c = "B") with rfl | rfl
    · exact ⟨110, rfl⟩
    · exact ⟨110, rfl⟩
  · intro c hc hck
    rcases (by simpa using hc : c = "A" ∨ c = "B") with rfl | rfl
    · exact absurd rfl hck
    · exact ⟨50, rfl⟩
  · intro c hc hck
    rcases (by simpa using hc : c = "A" ∨ c = "B") with rfl | rfl
    · exact absurd rfl hck
    · exact ⟨50, rfl⟩
  · exact Or.inl rfl

/-- C7: merging the same batch twice into the Price Series Store or the
Quarterly Flow Ledger yields exactly the stored set obtained by merging it
once. -/
theorem claim7_merge_idempotent :
    (∀ s b : List PriceObs, record_batch (record_batch s b) b = record_batch s b) ∧
    (∀ s b : List FlowRec, merge_flows (merge_flows s b) b = merge_flows s b) :=
  ⟨fun s b => merge_absorb_key priceKey s b, fun s b => merge_absorb_key flowKey s b⟩

/-- C8: after a merge no two stored records share a natural key
((date, code) for prices, (quarter_end, code) for flows), and on a key
collision the previously-existing record is retained: whatever record a key
resolved to in the existing store, it still resolves to after the merge. -/
theorem claim8_no_duplicate_keys_existing_retained :
    (∀ s b : List PriceObs,
      (record_batch s b).Pairwise (fun x y => priceKey x ≠ priceKey y) ∧
      ∀ k r, s.find? (fun x => priceKey x = k) = some r →
        (record_batch s b).find? (fun x => priceKey x = k) = some r) ∧
    (∀ s b : List FlowRec,
      (merge_flows s b).Pairwise (fun x y => flowKey x ≠ flowKey y) ∧
      ∀ k r, s.find? (fun x => flowKey x = k) = some r →
        (merge_flows s b).find? (fun x => flowKey x = k) = some r) :=
  ⟨fun s b => ⟨pairwise_key_dropDuplicates priceKey _,
     fun k r h => find?_merge_key priceKey s b k r h⟩,
   fun s b => ⟨pairwise_key_dropDuplicates flowKey _,
     fun k r h => find?_merge_key flowKey s b k r h⟩⟩

/-- Witness for C8: merging a batch that collides on (2024-01-01, A) keeps
the existing 100p observation, not the incoming 999p one. -/
theorem claim8_no_duplicate_keys_existing_retained_witness :
    (record_batch [⟨⟨2024, 1, 1⟩, "A", 100⟩] [⟨⟨2024, 1, 1⟩, "A", 999⟩]).find?
        (fun x => priceKey x = (⟨2024, 1, 1⟩, "A")) =
      some ⟨⟨2024, 1, 1⟩, "A", 100⟩ :=
  (claim8_no_duplicate_keys_existing_retained.1
      [⟨⟨2024, 1, 1⟩, "A", 100⟩] [⟨⟨2024, 1, 1⟩, "A", 999⟩]).2
    (⟨2024, 1, 1⟩, "A") ⟨⟨2024, 1, 1⟩, "A", 100⟩ (by rfl)

/-- C9 counterexample: the *reported* flow is the 2 dp rounding of
`aum_end - aum_no_flow`, so it is not strictly increasing in `aum_end`: with
the positive fixed inputs price_start = 100, price_end = 110, aum_start = 50,
the ends 55.001 < 55.002 produce the same reported flow 0.00. -/
theorem claim9_strict_monotonicity_counterexample :
    (0 : ℚ) < 50 ∧ (0 : ℚ) < 100 ∧ (0 : ℚ) < 110 ∧
    (55001 / 1000 : ℚ) < 55002 / 1000 ∧
    reportedFlow 50 (55001 / 1000) 100 110 =
      reportedFlow 50 (55002 / 1000) 100 110 ∧
    ¬ reportedFlow 50 (55001 / 1000) 100 110 <
        reportedFlow 50 (55002 / 1000) 100 110 := by
  norm_num [reportedFlow, units_start, aum_no_flow, round2, pyRound]

/-- C9 amended: for fixed positive prices and starting AUM, the *unrounded*
computed flow is strictly increasing in `aum_end`, and the reported
(2 dp rounded) flow is monotone non-decreasing in `aum_end`. -/
theorem claim9_amended_flow_monotone (s ps pe : ℚ)
    (hs : 0 < s) (hps : 0 < ps) (hpe : 0 < pe) (e1 e2 : ℚ) (h : e1 < e2) :
    e1 - aum_no_flow (units_start s ps) pe <
      e2 - aum_no_flow (units_start s ps) pe ∧
    reportedFlow s e1 ps pe ≤ reportedFlow s e2 ps pe := by
  refine ⟨by linarith, ?_⟩
  unfold reportedFlow
  exact round2_mono (by linarith)

/-- Witness for C9 amended, at s = 50, prices 100 and 110, ends 0 < 1. -/
theorem claim9_amended_flow_monotone_witness :
    (0 : ℚ) - aum_no_flow (units_start 50 100) 110 <
      1 - aum_no_flow (units_start 50 100) 110 ∧
    reportedFlow 50 0 100 110 ≤ reportedFlow 50 1 100 110 :=
  claim9_amended_flow_monotone 50 100 110 (by norm_num) (by norm_num)
    (by norm_num) 0 1 (by norm_num)

/-- C10: the claim says that on an estimation day the Driver passes the last
calendar day of the previous month as `quarter_end`.  The code computes
`today - pd.offsets.MonthBegin()`, which is the *first* day of a month (the
code's own comment says "last day of prior month"): on 2024-04-05 — a
triggering day, the 5th business day of April — it passes 2024-04-01
instead of 2024-03-31. -/
theorem claim10_code_quarter_end_is_month_first_day :
    isEstimationDay ⟨2024, 4, 5⟩ = true ∧
    monthBeginSub ⟨2024, 4, 5⟩ = ⟨2024, 4, 1⟩ ∧
    spec_quarter_end ⟨2024, 4, 5⟩ = ⟨2024, 3, 31⟩ ∧
    monthBeginSub ⟨2024, 4, 5⟩ ≠ spec_quarter_end ⟨2024, 4, 5⟩ := by
  decide

end SJP

